import Mathlib

/-!
Shallow embedding of the RP-Tracker bot's session timekeeping and reward
core (`src/main.py`).  Wall-clock timestamps and accumulated seconds are
modelled as rationals, SQL rows become Lean structures, and the per-session
database state is a `World` value.  Consecutive `time.time()` readings
inside one synchronous handler are modelled as a single instant.
-/

namespace RPTracker

/-- Reward rule `reward_hours` (src/main.py lines 234-239): whole-hour
rewards with a 45-minute threshold.  Python computes
`int((max(0.0, seconds) + 900) // 3600)`; for a non-negative operand the
float floor-division followed by `int` is the integer floor. -/
def reward_hours (seconds : ℚ) : ℤ := ⌊(max 0 seconds + 900) / 3600⌋

/-- XP-per-hour step function `xp_per_hour_for_level` (lines 242-253). -/
def xp_per_hour_for_level (level : ℤ) : ℤ :=
  if 2 ≤ level ∧ level ≤ 4 then 300
  else if 5 ≤ level ∧ level ≤ 8 then 600
  else if 9 ≤ level ∧ level ≤ 12 then 800
  else if 13 ≤ level ∧ level ≤ 16 then 1000
  else if 17 ≤ level ∧ level ≤ 20 then 1200
  else 0

/-- GP-per-hour `gp_per_hour_for_level` (lines 256-257):
`max(0, int(level)) * 10`. -/
def gp_per_hour_for_level (level : ℤ) : ℤ := max 0 level * 10

/-- Row of the `sessions` table (lines 177-186): `state` is the raw
integer column (0 stopped, 1 running, 2 paused). -/
structure Session where
  state : Nat
  started_at : Option ℚ
  run_seconds : ℚ
  channel_id : Option Nat
  guild_id : Option Nat
  deriving DecidableEq

/-- Row of the `participants` table (lines 188-201); the flag columns are
integers, tested for truthiness in Python (`if cap:`). -/
structure Participant where
  user_id : Nat
  character : String
  level : ℤ
  seconds : ℚ
  last_tick : Option ℚ
  capped : ℤ
  xp_dip : ℤ
  gp_dip : ℤ
  deriving DecidableEq

/-- The `keys` table (lines 203-211): per `(guild_id, user_id)` an optional
row of `(current, lifetime)`. -/
def Ledger : Type := Nat × Nat → Option (ℤ × ℤ)

/-- Database state restricted to one tracked session plus the key ledger. -/
structure World where
  sess : Option Session
  parts : List Participant
  ledger : Ledger

/-- Mirrors `get_session` (lines 392-409): a missing row reads as
`(0, None, 0.0, None, None)`. -/
def get_session : Option Session → Nat × Option ℚ × ℚ × Option Nat × Option Nat
  | none => (0, none, 0, none, none)
  | some s => (s.state, s.started_at, s.run_seconds, s.channel_id, s.guild_id)

/-- Mirrors `keys_get` (lines 333-340): a missing row reads as `(0, 0)`. -/
def keys_get (led : Ledger) (guild_id user_id : Nat) : ℤ × ℤ :=
  match led (guild_id, user_id) with
  | none => (0, 0)
  | some r => r

/-- Mirrors `keys_add` (lines 343-356): no-op for a non-positive amount,
otherwise upsert adding `amount` to both `current` and `lifetime`. -/
def keys_add (led : Ledger) (guild_id user_id : Nat) (amount : ℤ) : Ledger :=
  if amount ≤ 0 then led
  else fun k =>
    if k = (guild_id, user_id) then
      match led (guild_id, user_id) with
      | none => some (amount, amount)
      | some r => some (r.1 + amount, r.2 + amount)
    else led k

/-- Per-row update of `tick_running_sessions` (lines 544-551): a
participant with a non-null `last_tick` gains `max(0, now - last_tick)`
seconds and has `last_tick` reset to `now`. -/
def tick_one (now : ℚ) (p : Participant) : Participant :=
  match p.last_tick with
  | none => p
  | some lt => { p with seconds := p.seconds + max 0 (now - lt), last_tick := some now }

/-- All participant rows of one running session, ticked (lines 537-551). -/
def tick_parts (now : ℚ) (parts : List Participant) : List Participant :=
  parts.map (tick_one now)

/-- `tick_running_sessions` (lines 525-551) restricted to one session: only
a session whose row exists with `state=1` is ticked. -/
def tick_running (now : ℚ) (w : World) : World :=
  if (get_session w.sess).1 = 1 then { w with parts := tick_parts now w.parts } else w

/-- `session_elapsed_seconds` (lines 434-438). -/
def session_elapsed (now : ℚ) (w : World) : ℚ :=
  match get_session w.sess with
  | (state, started_at, run_seconds, _, _) =>
    match started_at with
    | some a => if state = 1 then run_seconds + max 0 (now - a) else run_seconds
    | none => run_seconds

/-- A participant's settled-plus-live total at `now`: `seconds` plus the
delta the tick formula would currently fold in. -/
def participant_elapsed (now : ℚ) (p : Participant) : ℚ :=
  match p.last_tick with
  | some lt => p.seconds + max 0 (now - lt)
  | none => p.seconds

inductive StartRes
  | alreadyRunning
  | started
  deriving DecidableEq

inductive PauseRes
  | notRunning
  | paused
  deriving DecidableEq

inductive ResumeRes
  | notPaused
  | resumed
  deriving DecidableEq

inductive LeaveRes
  | notJoined
  | left
  deriving DecidableEq

inductive RejoinRes
  | notJoined
  | presentNotRunning
  | rejoined
  deriving DecidableEq

inductive EndRes
  | notFound
  | ended
  deriving DecidableEq

inductive JoinRes
  | invalidLevel
  | emptyName
  | ok
  deriving DecidableEq

/-- `RPView.start_cb` (lines 755-780): no-op if already running; otherwise
insert the session row if absent (`ON CONFLICT DO NOTHING`), set it
running with the `run_seconds` value read before the insert, and arm every
participant's `last_tick`. -/
def start_cb (channel guild : Nat) (now : ℚ) (w : World) : StartRes × World :=
  match get_session w.sess with
  | (state, _, run_seconds, _, _) =>
    if state = 1 then (StartRes.alreadyRunning, w)
    else
      let sess0 : Session :=
        match w.sess with
        | none =>
          { state := 0, started_at := none, run_seconds := 0,
            channel_id := some channel, guild_id := some guild }
        | some s => s
      let sess1 : Session :=
        { sess0 with state := 1, started_at := some now,
                     channel_id := some channel, guild_id := some guild,
                     run_seconds := run_seconds }
      (StartRes.started,
        { sess := some sess1,
          parts := w.parts.map fun p => { p with last_tick := some now },
          ledger := w.ledger })

/-- `RPView.pause_cb` (lines 782-799): if running, settle every armed
participant via the tick, fold the live segment into `run_seconds`, park
the session and clear every `last_tick`. -/
def pause_cb (now : ℚ) (w : World) : PauseRes × World :=
  match get_session w.sess with
  | (state, started_at, run_seconds, _, _) =>
    match started_at with
    | none => (PauseRes.notRunning, w)
    | some a =>
      if state = 1 then
        let w1 := tick_running now w
        let new_run := run_seconds + max 0 (now - a)
        (PauseRes.paused,
          { sess := w1.sess.map fun s =>
              { s with state := 2, started_at := none, run_seconds := new_run },
            parts := w1.parts.map fun p => { p with last_tick := none },
            ledger := w1.ledger })
      else (PauseRes.notRunning, w)

/-- `RPView.resume_cb` (lines 801-817): only from the paused state; set the
session running from `now` and arm every participant's `last_tick`. -/
def resume_cb (now : ℚ) (w : World) : ResumeRes × World :=
  match get_session w.sess with
  | (state, _, run_seconds, _, _) =>
    if state = 2 then
      (ResumeRes.resumed,
        { sess := w.sess.map fun s =>
            { s with state := 1, started_at := some now, run_seconds := run_seconds },
          parts := w.parts.map fun p => { p with last_tick := some now },
          ledger := w.ledger })
    else (ResumeRes.notPaused, w)

/-- Participant-row lookup by user id (SQL `WHERE message_id=%s AND
user_id=%s`). -/
def findP (uid : Nat) (parts : List Participant) : Option Participant :=
  parts.find? fun p => p.user_id == uid

/-- Python's `str.strip()` as used on the character-name input (line 602):
drop leading and trailing whitespace. -/
def pyStrip (s : String) : String :=
  ⟨((s.data.dropWhile Char.isWhitespace).reverse.dropWhile Char.isWhitespace).reverse⟩

/-- `RPView.leave_cb` (lines 702-728): settle the clicker's own accrual up
to `now` and null their personal timer. -/
def leave_cb (uid : Nat) (now : ℚ) (w : World) : LeaveRes × World :=
  match findP uid w.parts with
  | none => (LeaveRes.notJoined, w)
  | some p0 =>
    let secs :=
      match p0.last_tick with
      | some lt => p0.seconds + max 0 (now - lt)
      | none => p0.seconds
    (LeaveRes.left,
      { w with parts := w.parts.map fun p =>
          if p.user_id == uid then { p with seconds := secs, last_tick := none } else p })

/-- `RPView.rejoin_cb` (lines 730-753): re-arm only the clicker if the
session is running, otherwise clear their timer and report it. -/
def rejoin_cb (uid : Nat) (now : ℚ) (w : World) : RejoinRes × World :=
  match get_session w.sess with
  | (state, _, _, _, _) =>
    if (findP uid w.parts).isSome then
      if state = 1 then
        (RejoinRes.rejoined,
          { w with parts := w.parts.map fun p =>
              if p.user_id == uid then { p with last_tick := some now } else p })
      else
        (RejoinRes.presentNotRunning,
          { w with parts := w.parts.map fun p =>
              if p.user_id == uid then { p with last_tick := none } else p })
    else (RejoinRes.notJoined, w)

/-- `JoinModal.on_submit` (lines 594-648): validate level then stripped
name, read the prior row's `seconds`, then upsert the participant row with
`last_tick = now` iff the session is running. -/
def join_submit (uid : Nat) (name : String) (level cap xd gd : ℤ) (now : ℚ)
    (w : World) : JoinRes × World :=
  if 1 ≤ level ∧ level ≤ 20 then
    let cname := pyStrip name
    if cname = "" then (JoinRes.emptyName, w)
    else
      let state := (get_session w.sess).1
      let prev_secs :=
        match findP uid w.parts with
        | some p => p.seconds
        | none => 0
      let newRow : Participant :=
        { user_id := uid, character := cname, level := level,
          seconds := prev_secs,
          last_tick := if state = 1 then some now else none,
          capped := cap, xp_dip := xd, gp_dip := gd }
      (JoinRes.ok,
        { w with parts :=
            if (findP uid w.parts).isSome then
              w.parts.map fun p => if p.user_id == uid then newRow else p
            else w.parts ++ [newRow] })
  else (JoinRes.invalidLevel, w)

/-- `end_session_and_post_rewards` (lines 825-896), state-and-ledger
effects: bail out with a not-found message when the Python-falsy check
`if not channel_id or not guild_id` fires, otherwise settle a running
session, stop it and every personal timer, then credit `reward_hours`
keys per capped participant (the reward text lines are pure output,
modelled by `participant_reward`). -/
def end_session (now : ℚ) (w : World) : EndRes × World :=
  match get_session w.sess with
  | (state, started_at, run_seconds, channel_id, guild_id) =>
    if channel_id.getD 0 = 0 ∨ guild_id.getD 0 = 0 then (EndRes.notFound, w)
    else
      let gid := guild_id.getD 0
      let settled :=
        match started_at with
        | some a =>
          if state = 1 then (tick_parts now w.parts, run_seconds + max 0 (now - a))
          else (w.parts, run_seconds)
        | none => (w.parts, run_seconds)
      let parts2 := settled.1.map fun p => { p with last_tick := none }
      let sess1 := w.sess.map fun s =>
        { s with state := 0, started_at := none, run_seconds := settled.2 }
      let led1 := parts2.foldl
        (fun led p =>
          if p.capped ≠ 0 then keys_add led gid p.user_id (reward_hours p.seconds)
          else led)
        w.ledger
      (EndRes.ended, { sess := sess1, parts := parts2, ledger := led1 })

/-- One reward line of the End report (lines 858-881). -/
structure Reward where
  hrs : ℤ
  gp : ℤ
  xp : ℤ
  keys : ℤ
  deriving DecidableEq

/-- Per-participant reward computation at End (lines 858-881): hours from
the 45-minute rule, GP doubled by the `gp_dip` flag, keys instead of XP
for a capped participant, XP doubled by the `xp_dip` flag otherwise. -/
def participant_reward (p : Participant) : Reward :=
  let hrs := reward_hours p.seconds
  let gp0 := gp_per_hour_for_level p.level * hrs
  let gp := if p.gp_dip ≠ 0 then gp0 * 2 else gp0
  if p.capped ≠ 0 then
    { hrs := hrs, gp := gp, xp := 0, keys := hrs }
  else
    let xp0 := xp_per_hour_for_level p.level * hrs
    let xp := if p.xp_dip ≠ 0 then xp0 * 2 else xp0
    { hrs := hrs, gp := gp, xp := xp, keys := 0 }

/-- Session row created by `/rpbegin` (lines 1086-1094). -/
def created_session (channel guild : Nat) : Session :=
  { state := 0, started_at := none, run_seconds := 0,
    channel_id := some channel, guild_id := some guild }

/-- C1: for every non-negative accrued-seconds value `s` the rewarded-hours
function returns `⌊(s + 900) / 3600⌋`, and the 45-minute threshold holds at
the boundary values 2699, 2700, 6299 and 6300. -/
theorem C1_reward_hours_formula (s : ℚ) (h : 0 ≤ s) :
    reward_hours s = ⌊(s + 900) / 3600⌋ ∧
    reward_hours 2699 = 0 ∧ reward_hours 2700 = 1 ∧
    reward_hours 6299 = 1 ∧ reward_hours 6300 = 2 := by
  refine ⟨?_, ?_, ?_, ?_, ?_⟩
  · unfold reward_hours
    rw [max_eq_right h]
  all_goals unfold reward_hours; norm_num

/-- Witness for C1 at `s = 3`. -/
theorem C1_reward_hours_formula_wit :
    reward_hours 3 = ⌊((3 : ℚ) + 900) / 3600⌋ ∧
    reward_hours 2699 = 0 ∧ reward_hours 2700 = 1 ∧
    reward_hours 6299 = 1 ∧ reward_hours 6300 = 2 :=
  C1_reward_hours_formula 3 (by norm_num)

/-- Rewarded hours are never negative: the operand of the floor is
positive. -/
lemma reward_hours_nonneg (s : ℚ) : 0 ≤ reward_hours s := by
  unfold reward_hours
  apply Int.floor_nonneg.mpr
  have h0 : (0 : ℚ) ≤ max 0 s := le_max_left _ _
  positivity

/-- Adding a non-negative amount of keys raises both ledger components by
exactly that amount (also for amount 0, where `keys_add` is a no-op). -/
lemma keys_get_keys_add (led : Ledger) (g u : Nat) (a : ℤ) (ha : 0 ≤ a) :
    keys_get (keys_add led g u a) g u =
      ((keys_get led g u).1 + a, (keys_get led g u).2 + a) := by
  rcases lt_or_eq_of_le ha with hlt | heq
  · unfold keys_add keys_get
    rw [if_neg (by omega)]
    simp only [if_pos rfl]
    cases led (g, u) <;> simp
  · rw [← heq]
    unfold keys_add
    simp

/-- C4: for a non-capped participant the End-time XP reward is the bracket
rate — 300 for levels 2-4, 600 for 5-8, 800 for 9-12, 1000 for 13-16,
1200 for 17-20, and 0 for every other level — times the rewarded hours,
doubled exactly when the `xp_dip` multiplier flag is set; in particular
level 1 earns rate 0. -/
theorem C4_xp_reward (p : Participant) (h : p.capped = 0) :
    (participant_reward p).xp =
      (if 2 ≤ p.level ∧ p.level ≤ 4 then 300
       else if 5 ≤ p.level ∧ p.level ≤ 8 then 600
       else if 9 ≤ p.level ∧ p.level ≤ 12 then 800
       else if 13 ≤ p.level ∧ p.level ≤ 16 then 1000
       else if 17 ≤ p.level ∧ p.level ≤ 20 then 1200
       else 0) * reward_hours p.seconds *
      (if p.xp_dip ≠ 0 then 2 else 1) ∧
    xp_per_hour_for_level 1 = 0 := by
  constructor
  · by_cases hxp : p.xp_dip ≠ 0 <;>
      simp [participant_reward, xp_per_hour_for_level, h, hxp] <;>
      split_ifs <;> ring
  · decide

/-- Witness for C4: level 10, 2700 accrued seconds, no flags. -/
theorem C4_xp_reward_wit :
    (participant_reward ⟨1, "A", 10, 2700, none, 0, 0, 0⟩).xp =
      800 * reward_hours 2700 * 1 ∧
    xp_per_hour_for_level 1 = 0 := by
  have h := C4_xp_reward ⟨1, "A", 10, 2700, none, 0, 0, 0⟩ rfl
  simpa using h

/-- C5: the End-time currency reward is `level * 10 * rewarded_hours`,
doubled exactly when the `gp_dip` multiplier flag is set (for the valid
levels `1 ≤ level`, where the source's `max(0, level)` is `level`); and a
capped participant receives `rewarded_hours` keys in place of experience —
credited onto both components of the persistent key ledger — while the
currency reward still applies. -/
theorem C5_gp_and_capped_keys (p : Participant) (led : Ledger) (g : Nat)
    (h1 : 1 ≤ p.level) :
    (participant_reward p).gp =
      p.level * 10 * reward_hours p.seconds * (if p.gp_dip ≠ 0 then 2 else 1) ∧
    (p.capped ≠ 0 →
      (participant_reward p).keys = reward_hours p.seconds ∧
      (participant_reward p).xp = 0 ∧
      (keys_get (keys_add led g p.user_id (reward_hours p.seconds)) g p.user_id).1 =
        (keys_get led g p.user_id).1 + reward_hours p.seconds ∧
      (keys_get (keys_add led g p.user_id (reward_hours p.seconds)) g p.user_id).2 =
        (keys_get led g p.user_id).2 + reward_hours p.seconds) := by
  have hmax : max 0 p.level = p.level := max_eq_right (by linarith)
  constructor
  · by_cases hgp : p.gp_dip ≠ 0 <;> by_cases hcap : p.capped ≠ 0 <;>
      simp [participant_reward, gp_per_hour_for_level, hmax, hgp, hcap] <;>
      split_ifs <;> ring
  · intro hcap
    have hadd := keys_get_keys_add led g p.user_id (reward_hours p.seconds)
      (reward_hours_nonneg _)
    refine ⟨?_, ?_, ?_, ?_⟩
    · simp [participant_reward, hcap]
    · simp [participant_reward, hcap]
    · rw [hadd]
    · rw [hadd]

/-- Witness for C5: the spec's end-to-end example — level 20, capped, GP
multiplier, 7200 accrued seconds, empty ledger. -/
theorem C5_gp_and_capped_keys_wit :
    (participant_reward ⟨2, "B", 20, 7200, none, 1, 0, 1⟩).gp =
      20 * 10 * reward_hours 7200 * 2 ∧
    (participant_reward ⟨2, "B", 20, 7200, none, 1, 0, 1⟩).keys = reward_hours 7200 ∧
    (participant_reward ⟨2, "B", 20, 7200, none, 1, 0, 1⟩).xp = 0 ∧
    (keys_get (keys_add (fun _ => none) 9 2 (reward_hours 7200)) 9 2).1 =
      (keys_get (fun _ => none) 9 2).1 + reward_hours 7200 ∧
    (keys_get (keys_add (fun _ => none) 9 2 (reward_hours 7200)) 9 2).2 =
      (keys_get (fun _ => none) 9 2).2 + reward_hours 7200 := by
  have h := C5_gp_and_capped_keys ⟨2, "B", 20, 7200, none, 1, 0, 1⟩
    (fun _ => none) 9 (by norm_num)
  have h2 := h.2 (by norm_num)
  exact ⟨by simpa using h.1, h2.1, h2.2.1, h2.2.2.1, h2.2.2.2⟩

/-- Ticking one row twice at the same instant is the same as once: the
second delta is `max 0 (now - now) = 0`. -/
lemma tick_one_idem (now : ℚ) (p : Participant) :
    tick_one now (tick_one now p) = tick_one now p := by
  cases h : p.last_tick with
  | none =>
    have h1 : tick_one now p = p := by unfold tick_one; rw [h]
    rw [h1, h1]
  | some lt =>
    have h1 : tick_one now p =
        { p with seconds := p.seconds + max 0 (now - lt), last_tick := some now } := by
      unfold tick_one; rw [h]
    rw [h1]
    unfold tick_one
    simp

/-- Ticking a roster twice at the same instant is the same as once. -/
lemma tick_parts_idem (now : ℚ) (parts : List Participant) :
    tick_parts now (tick_parts now parts) = tick_parts now parts := by
  unfold tick_parts
  rw [List.map_map]
  exact List.map_congr_left fun p _ => tick_one_idem now p

/-- C6: each tick applies exactly the delta `max 0 (now - last_tick)` to an
armed participant (and nothing to a disarmed one), so `seconds` never
decreases; and the whole per-session tick is idempotent at a fixed `now`
because `last_tick` is reset to `now` after each settle. -/
theorem C6_tick_delta_and_idempotence (now : ℚ) (w : World)
    (parts : List Participant) :
    List.Forall₂ (fun p q =>
        q.seconds = p.seconds +
          (match p.last_tick with
           | some lt => max 0 (now - lt)
           | none => 0) ∧
        p.seconds ≤ q.seconds) parts (tick_parts now parts) ∧
    tick_running now (tick_running now w) = tick_running now w := by
  constructor
  · induction parts with
    | nil => exact List.Forall₂.nil
    | cons p ps ih =>
      refine List.Forall₂.cons ?_ ih
      unfold tick_one
      cases hlt : p.last_tick with
      | none => exact ⟨by simp, le_refl _⟩
      | some lt =>
        refine ⟨rfl, ?_⟩
        have : (0 : ℚ) ≤ max 0 (now - lt) := le_max_left _ _
        simp only []
        linarith
  · unfold tick_running
    by_cases h : (get_session w.sess).1 = 1
    · simp [h, tick_parts_idem]
    · simp [h]

/-- C9 counterexample: pressing Start on a wholly unknown session id does
not surface a not-found error — lines 764-768 insert a fresh session row
(`ON CONFLICT DO NOTHING`) and line 770 starts it, so a session record is
silently created as a side effect. -/
theorem C9_counterexample_start_creates :
    (start_cb 1 2 50 ⟨none, [], fun _ => none⟩).2.sess =
      some ⟨1, some 50, 0, some 1, some 2⟩ ∧
    (start_cb 1 2 50 ⟨none, [], fun _ => none⟩).1 = StartRes.started :=
  ⟨rfl, rfl⟩

/-- C9 amended: on an unknown session id, End surfaces the distinct
not-found error and Pause/Resume/Leave/Rejoin surface their no-op or
not-joined responses, all without mutating anything (in particular no
session record is created); Start, however, silently creates and starts a
session record (see the counterexample). -/
theorem C9_amended_unknown_session (uid : Nat) (t : ℚ) (L : Ledger) :
    pause_cb t ⟨none, [], L⟩ = (PauseRes.notRunning, ⟨none, [], L⟩) ∧
    resume_cb t ⟨none, [], L⟩ = (ResumeRes.notPaused, ⟨none, [], L⟩) ∧
    leave_cb uid t ⟨none, [], L⟩ = (LeaveRes.notJoined, ⟨none, [], L⟩) ∧
    rejoin_cb uid t ⟨none, [], L⟩ = (RejoinRes.notJoined, ⟨none, [], L⟩) ∧
    end_session t ⟨none, [], L⟩ = (EndRes.notFound, ⟨none, [], L⟩) :=
  ⟨rfl, rfl, rfl, rfl, rfl⟩

/-- Ending a single-participant session whose row is already Stopped
settles nothing and still runs the reward pass: the capped participant's
keys are credited again from the stored total. -/
lemma end_session_stopped (t : ℚ) (s : Session) (p : Participant) (L : Ledger)
    (ch g : Nat) (hch : s.channel_id = some ch) (hch0 : ch ≠ 0)
    (hg : s.guild_id = some g) (hg0 : g ≠ 0) (hstate : s.state = 0) :
    end_session t ⟨some s, [p], L⟩ =
      (EndRes.ended,
        ⟨some { s with state := 0, started_at := none, run_seconds := s.run_seconds },
         [{ p with last_tick := none }],
         if p.capped ≠ 0 then keys_add L g p.user_id (reward_hours p.seconds)
         else L⟩) := by
  simp only [end_session, get_session, hch, hg]
  rw [if_neg (by simp [hch0, hg0])]
  cases hsa : s.started_at <;> by_cases hcap2 : p.capped ≠ 0 <;>
    simp [hstate, hsa, hcap2, hch, hg]

/-- C10: End is not idempotent on the key ledger — ending a session that
is already Stopped recomputes rewards from the stored totals and credits
the capped participant's keys again, so two consecutive End calls add
twice the rewarded hours to both the current and the lifetime balance. -/
theorem C10_end_double_credit (s : Session) (p : Participant) (L : Ledger)
    (t1 t2 : ℚ) (ch g : Nat)
    (hch : s.channel_id = some ch) (hch0 : ch ≠ 0)
    (hg : s.guild_id = some g) (hg0 : g ≠ 0)
    (hstate : s.state = 0) (hcap : p.capped ≠ 0)
    (hpos : 0 < reward_hours p.seconds) :
    (keys_get (end_session t2 (end_session t1 ⟨some s, [p], L⟩).2).2.ledger
        g p.user_id).1 =
      (keys_get L g p.user_id).1 + 2 * reward_hours p.seconds ∧
    (keys_get (end_session t2 (end_session t1 ⟨some s, [p], L⟩).2).2.ledger
        g p.user_id).2 =
      (keys_get L g p.user_id).2 + 2 * reward_hours p.seconds := by
  have hnn : (0 : ℤ) ≤ reward_hours p.seconds := le_of_lt hpos
  have e1 := end_session_stopped t1 s p L ch g hch hch0 hg hg0 hstate
  have e2 := end_session_stopped t2
    { s with state := 0, started_at := none, run_seconds := s.run_seconds }
    { p with last_tick := none }
    (keys_add L g p.user_id (reward_hours p.seconds)) ch g hch hch0 hg hg0 rfl
  have hfinal : (end_session t2 (end_session t1 ⟨some s, [p], L⟩).2).2.ledger =
      keys_add (keys_add L g p.user_id (reward_hours p.seconds)) g p.user_id
        (reward_hours p.seconds) := by
    rw [e1]
    dsimp only
    rw [if_pos hcap, e2]
    dsimp only
    rw [if_pos hcap]
  rw [hfinal, keys_get_keys_add _ _ _ _ hnn, keys_get_keys_add _ _ _ _ hnn]
  constructor <;> dsimp only <;> ring

/-- Witness for C10: stopped session, capped level-20 participant with 7200
accrued seconds (2 rewarded hours), empty ledger, two End presses. -/
theorem C10_end_double_credit_wit :
    (keys_get (end_session 200 (end_session 100 ⟨some ⟨0, none, 0, some 1, some 2⟩,
        [⟨7, "A", 20, 7200, none, 1, 0, 0⟩], fun _ => none⟩).2).2.ledger 2 7).1 =
      (keys_get (fun _ => none) 2 7).1 + 2 * reward_hours 7200 ∧
    (keys_get (end_session 200 (end_session 100 ⟨some ⟨0, none, 0, some 1, some 2⟩,
        [⟨7, "A", 20, 7200, none, 1, 0, 0⟩], fun _ => none⟩).2).2.ledger 2 7).2 =
      (keys_get (fun _ => none) 2 7).2 + 2 * reward_hours 7200 :=
  C10_end_double_credit ⟨0, none, 0, some 1, some 2⟩ ⟨7, "A", 20, 7200, none, 1, 0, 0⟩
    (fun _ => none) 100 200 1 2 rfl (by norm_num) rfl (by norm_num) rfl (by norm_num)
    (by unfold reward_hours; norm_num)

/-- Start's participant update (line 777) has no per-row filter: when the
session is not already running, every row gets `last_tick = now`. -/
lemma start_cb_parts (channel guild : Nat) (now : ℚ) (w : World)
    (h : (get_session w.sess).1 ≠ 1) :
    (start_cb channel guild now w).2.parts =
      w.parts.map fun p => { p with last_tick := some now } := by
  cases hw : w.sess with
  | none => simp [start_cb, hw, get_session]
  | some s =>
    have hs : s.state ≠ 1 := by rw [hw] at h; simpa [get_session] using h
    simp [start_cb, hw, get_session, hs]

/-- Resume's participant update (line 814) has no per-row filter either:
from Paused, every row gets `last_tick = now`. -/
lemma resume_cb_parts (now : ℚ) (w : World)
    (h : (get_session w.sess).1 = 2) :
    (resume_cb now w).2.parts =
      w.parts.map fun p => { p with last_tick := some now } := by
  cases hw : w.sess with
  | none => rw [hw] at h; simp [get_session] at h
  | some s =>
    have hs : s.state = 2 := by rw [hw] at h; simpa [get_session] using h
    simp [resume_cb, hw, get_session, hs]

/-- C3: Start (from any non-running state) and Resume (from Paused) set
`last_tick = now` on every participant row of the session, including rows
whose owner previously pressed Leave; in the spec's scenario — join and
start at t=0, leave at t=100 with 100s accrued, pause at t=200, resume at
t=300 with no rejoin, tick at t=400 — the leaver accrues again after the
resume, reaching 200 seconds. -/
theorem C3_start_resume_rearm_all (w : World) (channel guild : Nat) (now : ℚ) :
    ((get_session w.sess).1 ≠ 1 →
      ∀ p ∈ (start_cb channel guild now w).2.parts, p.last_tick = some now) ∧
    ((get_session w.sess).1 = 2 →
      ∀ p ∈ (resume_cb now w).2.parts, p.last_tick = some now) ∧
    Option.map Participant.seconds (findP 7 (tick_running 400 ((resume_cb 300
      ((pause_cb 200 ((leave_cb 7 100 ((start_cb 1 2 0 ((join_submit 7 "A" 5 0 0 0 0
        ⟨some (created_session 1 2), [], fun _ => none⟩).2)).2)).2)).2)).2)).parts) =
      some 200 := by
  refine ⟨?_, ?_, ?_⟩
  · intro h p hp
    rw [start_cb_parts channel guild now w h] at hp
    obtain ⟨q, _, rfl⟩ := List.mem_map.mp hp
    rfl
  · intro h p hp
    rw [resume_cb_parts now w h] at hp
    obtain ⟨q, _, rfl⟩ := List.mem_map.mp hp
    rfl
  · have harith : (0 + max 0 ((100 : ℚ) - 0)) + max 0 (400 - 300) = 200 := by
      norm_num
    conv_rhs => rw [← harith]
    rfl

/-- Witness for C3: on a paused session holding one row with a cleared
timer (its owner had left), both Start and Resume at t=300 re-arm that
row to `last_tick = 300`. -/
theorem C3_start_resume_rearm_all_wit :
    (⟨7, "A", 5, 100, some 300, 0, 0, 0⟩ : Participant).last_tick = some 300 ∧
    (⟨7, "A", 5, 100, some 300, 0, 0, 0⟩ : Participant).last_tick = some 300 := by
  have h := C3_start_resume_rearm_all
    ⟨some ⟨2, none, 20, some 1, some 2⟩, [⟨7, "A", 5, 100, none, 0, 0, 0⟩],
     fun _ => none⟩ 1 2 300
  exact ⟨h.1 (by decide) _ (by decide), h.2.1 (by decide) _ (by decide)⟩

/-- User and driver actions on one tracked session, each carrying the
wall-clock instant at which its handler runs. -/
inductive Op
  | opStart (channel guild : Nat) (t : ℚ)
  | opPause (t : ℚ)
  | opResume (t : ℚ)
  | opEnd (t : ℚ)
  | opTick (t : ℚ)
  | opJoin (uid : Nat) (name : String) (level cap xd gd : ℤ) (t : ℚ)
  | opLeave (uid : Nat) (t : ℚ)
  | opRejoin (uid : Nat) (t : ℚ)

/-- Wall-clock instant of an action. -/
def opTime : Op → ℚ
  | .opStart _ _ t => t
  | .opPause t => t
  | .opResume t => t
  | .opEnd t => t
  | .opTick t => t
  | .opJoin _ _ _ _ _ _ t => t
  | .opLeave _ t => t
  | .opRejoin _ t => t

/-- State-transition effect of one action (responses dropped). -/
def applyOp (w : World) : Op → World
  | .opStart c g t => (start_cb c g t w).2
  | .opPause t => (pause_cb t w).2
  | .opResume t => (resume_cb t w).2
  | .opEnd t => (end_session t w).2
  | .opTick t => tick_running t w
  | .opJoin uid nm lv cap xd gd t => (join_submit uid nm lv cap xd gd t w).2
  | .opLeave uid t => (leave_cb uid t w).2
  | .opRejoin uid t => (rejoin_cb uid t w).2

/-- Session-clock invariant of the data model: `started_at` is non-null
iff the session state is Running (`state = 1`). -/
def StartedIffRunning (o : Option Session) : Prop :=
  ∀ s, o = some s → (s.started_at ≠ none ↔ s.state = 1)

/-- Ticks never touch the session row. -/
lemma tick_running_sess (now : ℚ) (w : World) :
    (tick_running now w).sess = w.sess := by
  unfold tick_running
  by_cases h : (get_session w.sess).1 = 1 <;> simp [h]

/-- Every operation preserves the session-clock invariant. -/
lemma applyOp_startedIffRunning (w : World) (op : Op)
    (h : StartedIffRunning w.sess) :
    StartedIffRunning (applyOp w op).sess := by
  cases op with
  | opStart c g t =>
    cases hw : w.sess with
    | none =>
      simp only [applyOp, start_cb, hw, get_session]
      intro s hs
      simp at hs
      subst hs
      simp
    | some s0 =>
      by_cases hs1 : s0.state = 1
      · simp only [applyOp, start_cb, hw, get_session]
        rw [if_pos hs1]
        intro s hs
        exact h s (by simpa using hs)
      · simp only [applyOp, start_cb, hw, get_session]
        rw [if_neg hs1]
        intro s hs
        simp at hs
        subst hs
        simp
  | opPause t =>
    cases hw : w.sess with
    | none =>
      simp only [applyOp, pause_cb, hw, get_session]
      intro s hs
      exact h s (by simpa using hs)
    | some s0 =>
      cases hsa : s0.started_at with
      | none =>
        simp only [applyOp, pause_cb, hw, get_session, hsa]
        intro s hs
        simp at hs
        exact h s (by rw [hw, hs])
      | some a =>
        by_cases hs1 : s0.state = 1
        · simp only [applyOp, pause_cb, hw, get_session, hsa]
          rw [if_pos hs1]
          intro s hs
          simp [tick_running_sess, hw] at hs
          subst hs
          simp
        · simp only [applyOp, pause_cb, hw, get_session, hsa]
          rw [if_neg hs1]
          intro s hs
          exact h s (by simpa using hs)
  | opResume t =>
    cases hw : w.sess with
    | none =>
      simp only [applyOp, resume_cb, hw, get_session]
      intro s hs
      exact h s hs
    | some s0 =>
      by_cases hs2 : s0.state = 2
      · simp only [applyOp, resume_cb, hw, get_session]
        rw [if_pos hs2]
        intro s hs
        simp at hs
        subst hs
        simp
      · simp only [applyOp, resume_cb, hw, get_session]
        rw [if_neg hs2]
        intro s hs
        exact h s (by simpa using hs)
  | opEnd t =>
    cases hw : w.sess with
    | none =>
      simp only [applyOp, end_session, hw, get_session]
      intro s hs
      exact h s hs
    | some s0 =>
      by_cases hnf : (s0.channel_id.getD 0 = 0 ∨ s0.guild_id.getD 0 = 0)
      · simp only [applyOp, end_session, hw, get_session]
        rw [if_pos hnf]
        intro s hs
        exact h s (by simpa using hs)
      · simp only [applyOp, end_session, hw, get_session]
        rw [if_neg hnf]
        intro s hs
        simp at hs
        subst hs
        simp
  | opTick t =>
    intro s hs
    simp only [applyOp] at hs
    rw [tick_running_sess] at hs
    exact h s hs
  | opJoin uid nm lv cap xd gd t =>
    intro s hs
    simp only [applyOp, join_submit] at hs
    split at hs
    · split at hs
      · exact h s hs
      · exact h s hs
    · exact h s hs
  | opLeave uid t =>
    intro s hs
    simp only [applyOp, leave_cb] at hs
    split at hs
    · exact h s hs
    · exact h s hs
  | opRejoin uid t =>
    intro s hs
    simp only [applyOp, rejoin_cb] at hs
    split at hs
    · split at hs
      · exact h s hs
      · exact h s hs
    · exact h s hs

/-- Folding any action list preserves the session-clock invariant. -/
lemma foldl_startedIffRunning :
    ∀ (ops : List Op) (w : World), StartedIffRunning w.sess →
      StartedIffRunning ((ops.foldl applyOp w).sess)
  | [], _, h => h
  | op :: ops, w, h =>
    foldl_startedIffRunning ops (applyOp w op) (applyOp_startedIffRunning w op h)

/-- C7: every session state reachable from a freshly posted tracker by any
sequence of operations satisfies the invariant that `run_started_at`
(`started_at`) is non-null iff the state is Running: Start/Resume set
both, while Pause and End clear `started_at` when leaving Running. -/
theorem C7_started_iff_running (channel guild : Nat) (L : Ledger)
    (ops : List Op) :
    StartedIffRunning
      ((ops.foldl applyOp
          ⟨some (created_session channel guild), [], L⟩).sess) := by
  apply foldl_startedIffRunning
  intro s hs
  simp [created_session] at hs
  subst hs
  simp

/-- Witness for C7: after pressing Start at t=10 on a fresh tracker, the
session row has `started_at = some 10` and `state = 1`, and the invariant
instance produced by the theorem holds at that concrete row. -/
theorem C7_started_iff_running_wit :
    ((⟨1, some 10, 0, some 1, some 2⟩ : Session).started_at ≠ none ↔
      (⟨1, some 10, 0, some 1, some 2⟩ : Session).state = 1) :=
  C7_started_iff_running 1 2 (fun _ => none) [Op.opStart 1 2 10]
    ⟨1, some 10, 0, some 1, some 2⟩ rfl

/-- Timer-only actions: Start, Pause, Resume and the periodic tick. -/
def isTimerOp : Op → Bool
  | .opStart _ _ _ => true
  | .opPause _ => true
  | .opResume _ => true
  | .opTick _ => true
  | _ => false

/-- Accrual-synchrony invariant at horizon `t`: the session row exists,
and either it is Running from some `a ≤ t` with every participant row
armed at some `lt ∈ [a, t]` holding `run_seconds + (lt - a)` settled
seconds, or it is not Running and every row is disarmed holding exactly
`run_seconds`. -/
def SyncInv (t : ℚ) (w : World) : Prop :=
  ∃ s, w.sess = some s ∧
    ((s.state = 1 ∧ ∃ a, s.started_at = some a ∧ a ≤ t ∧
        ∀ p ∈ w.parts, ∃ lt, p.last_tick = some lt ∧ a ≤ lt ∧ lt ≤ t ∧
          p.seconds = s.run_seconds + (lt - a)) ∨
      (s.state ≠ 1 ∧ ∀ p ∈ w.parts, p.last_tick = none ∧ p.seconds = s.run_seconds))

/-- The synchrony invariant weakens as the horizon grows. -/
lemma syncInv_mono {t u : ℚ} (htu : t ≤ u) {w : World} (h : SyncInv t w) :
    SyncInv u w := by
  obtain ⟨s, hsess, hcase⟩ := h
  refine ⟨s, hsess, ?_⟩
  cases hcase with
  | inl hrun =>
    obtain ⟨hst, a, hsa, hat, hp⟩ := hrun
    refine Or.inl ⟨hst, a, hsa, le_trans hat htu, fun p hpmem => ?_⟩
    obtain ⟨lt, h1, h2, h3, h4⟩ := hp p hpmem
    exact ⟨lt, h1, h2, le_trans h3 htu, h4⟩
  | inr hstp => exact Or.inr hstp

/-- Start preserves the synchrony invariant. -/
lemma syncInv_start {t u : ℚ} (htu : t ≤ u) (c g : Nat) {w : World}
    (h : SyncInv t w) : SyncInv u (start_cb c g u w).2 := by
  obtain ⟨s, hsess, hcase⟩ := h
  by_cases hs1 : s.state = 1
  · have hred : (start_cb c g u w).2 = w := by
      simp [start_cb, hsess, get_session, hs1]
    rw [hred]
    exact syncInv_mono htu ⟨s, hsess, hcase⟩
  · have hred : (start_cb c g u w).2 =
        ⟨some { s with
            state := 1, started_at := some u, channel_id := some c,
            guild_id := some g, run_seconds := s.run_seconds },
          w.parts.map fun p => { p with last_tick := some u }, w.ledger⟩ := by
      simp [start_cb, hsess, get_session, hs1]
    rw [hred]
    refine ⟨_, rfl, Or.inl ⟨rfl, u, rfl, le_refl u, ?_⟩⟩
    intro p hp
    obtain ⟨q, hq, rfl⟩ := List.mem_map.mp hp
    refine ⟨u, rfl, le_refl u, le_refl u, ?_⟩
    cases hcase with
    | inl hrun => exact absurd hrun.1 hs1
    | inr hstp =>
      have hsec := (hstp.2 q hq).2
      simp only []
      rw [hsec]
      ring

/-- Pause preserves the synchrony invariant. -/
lemma syncInv_pause {t u : ℚ} (htu : t ≤ u) {w : World}
    (h : SyncInv t w) : SyncInv u (pause_cb u w).2 := by
  obtain ⟨s, hsess, hcase⟩ := h
  cases hcase with
  | inl hrun =>
    obtain ⟨hst, a, hsa, hat, hp⟩ := hrun
    have hred : (pause_cb u w).2 =
        ⟨some { s with
            state := 2, started_at := none,
            run_seconds := s.run_seconds + max 0 (u - a) },
          (tick_parts u w.parts).map fun p => { p with last_tick := none },
          w.ledger⟩ := by
      simp [pause_cb, hsess, get_session, hsa, hst, tick_running]
    rw [hred]
    refine ⟨_, rfl, Or.inr ⟨by simp, ?_⟩⟩
    intro p hpm
    obtain ⟨q, hq, rfl⟩ := List.mem_map.mp hpm
    obtain ⟨q0, hq0, rfl⟩ := List.mem_map.mp (by simpa [tick_parts] using hq)
    obtain ⟨lt, hlt, halt, hltt, hsec⟩ := hp q0 hq0
    have hq1 : tick_one u q0 =
        { q0 with seconds := q0.seconds + max 0 (u - lt), last_tick := some u } := by
      unfold tick_one
      rw [hlt]
    refine ⟨rfl, ?_⟩
    rw [hq1]
    simp only []
    rw [hsec, max_eq_right (by linarith), max_eq_right (by linarith)]
    ring
  | inr hstp =>
    obtain ⟨hst, hp⟩ := hstp
    have hred : (pause_cb u w).2 = w := by
      cases hsa : s.started_at with
      | none => simp [pause_cb, hsess, get_session, hsa]
      | some a => simp [pause_cb, hsess, get_session, hsa, hst]
    rw [hred]
    exact syncInv_mono htu ⟨s, hsess, Or.inr ⟨hst, hp⟩⟩

/-- Resume preserves the synchrony invariant. -/
lemma syncInv_resume {t u : ℚ} (htu : t ≤ u) {w : World}
    (h : SyncInv t w) : SyncInv u (resume_cb u w).2 := by
  obtain ⟨s, hsess, hcase⟩ := h
  by_cases hs2 : s.state = 2
  · have hstp : s.state ≠ 1 ∧
        ∀ p ∈ w.parts, p.last_tick = none ∧ p.seconds = s.run_seconds := by
      cases hcase with
      | inl hrun =>
        rw [hrun.1] at hs2
        exact absurd hs2 (by norm_num)
      | inr hstp => exact hstp
    have hred : (resume_cb u w).2 =
        ⟨some { s with
            state := 1, started_at := some u, run_seconds := s.run_seconds },
          w.parts.map fun p => { p with last_tick := some u }, w.ledger⟩ := by
      simp [resume_cb, hsess, get_session, hs2]
    rw [hred]
    refine ⟨_, rfl, Or.inl ⟨rfl, u, rfl, le_refl u, ?_⟩⟩
    intro p hp
    obtain ⟨q, hq, rfl⟩ := List.mem_map.mp hp
    refine ⟨u, rfl, le_refl u, le_refl u, ?_⟩
    have hsec := (hstp.2 q hq).2
    simp only []
    rw [hsec]
    ring
  · have hred : (resume_cb u w).2 = w := by
      simp [resume_cb, hsess, get_session, hs2]
    rw [hred]
    exact syncInv_mono htu ⟨s, hsess, hcase⟩

/-- The periodic tick preserves the synchrony invariant. -/
lemma syncInv_tick {t u : ℚ} (htu : t ≤ u) {w : World}
    (h : SyncInv t w) : SyncInv u (tick_running u w) := by
  obtain ⟨s, hsess, hcase⟩ := h
  cases hcase with
  | inl hrun =>
    obtain ⟨hst, a, hsa, hat, hp⟩ := hrun
    have hred : tick_running u w = { w with parts := tick_parts u w.parts } := by
      simp [tick_running, hsess, get_session, hst]
    rw [hred]
    refine ⟨s, hsess, Or.inl ⟨hst, a, hsa, le_trans hat htu, ?_⟩⟩
    intro p hp2
    obtain ⟨q0, hq0, rfl⟩ := List.mem_map.mp (by simpa [tick_parts] using hp2)
    obtain ⟨lt, hlt, halt, hltt, hsec⟩ := hp q0 hq0
    have hq1 : tick_one u q0 =
        { q0 with seconds := q0.seconds + max 0 (u - lt), last_tick := some u } := by
      unfold tick_one
      rw [hlt]
    rw [hq1]
    refine ⟨u, rfl, le_trans halt (le_trans hltt htu), le_refl u, ?_⟩
    simp only []
    rw [hsec, max_eq_right (by linarith)]
    ring
  | inr hstp =>
    have hred : tick_running u w = w := by
      simp [tick_running, hsess, get_session, hstp.1]
    rw [hred]
    exact syncInv_mono htu ⟨s, hsess, Or.inr hstp⟩

/-- Any timer action at an instant past the horizon moves the invariant to
its own instant. -/
lemma syncInv_step {t : ℚ} (op : Op) (hop : isTimerOp op = true)
    {w : World} (htu : t ≤ opTime op) (h : SyncInv t w) :
    SyncInv (opTime op) (applyOp w op) := by
  cases op with
  | opStart c g u => exact syncInv_start htu c g h
  | opPause u => exact syncInv_pause htu h
  | opResume u => exact syncInv_resume htu h
  | opTick u => exact syncInv_tick htu h
  | opEnd u => simp [isTimerOp] at hop
  | opJoin a b c d e f u => simp [isTimerOp] at hop
  | opLeave a u => simp [isTimerOp] at hop
  | opRejoin a u => simp [isTimerOp] at hop

/-- Folding timer actions along a nondecreasing time chain carries the
invariant to the final horizon. -/
lemma syncInv_foldl_end :
    ∀ (ops : List Op) (t0 tEnd : ℚ) (w : World),
      (∀ op ∈ ops, isTimerOp op = true) →
      List.Chain' (· ≤ ·) (t0 :: (ops.map opTime ++ [tEnd])) →
      SyncInv t0 w →
      SyncInv tEnd (ops.foldl applyOp w)
  | [], _, _, _, _, hchain, h => by
    simp only [List.map_nil, List.nil_append] at hchain
    exact syncInv_mono (List.chain'_cons.mp hchain).1 h
  | op :: ops, t0, tEnd, w, hops, hchain, h => by
    simp only [List.map_cons, List.cons_append] at hchain
    obtain ⟨h01, hrest⟩ := List.chain'_cons.mp hchain
    exact syncInv_foldl_end ops (opTime op) tEnd (applyOp w op)
      (fun o ho => hops o (List.mem_cons_of_mem _ ho))
      hrest
      (syncInv_step op (hops op (List.mem_cons_self _ _)) h01 h)

/-- Under the synchrony invariant, every participant's settled-plus-live
total equals the session's elapsed Running total. -/
lemma syncInv_elapsed {t : ℚ} {w : World} (h : SyncInv t w) :
    ∀ p ∈ w.parts, participant_elapsed t p = session_elapsed t w := by
  obtain ⟨s, hsess, hcase⟩ := h
  intro p hp
  cases hcase with
  | inl hrun =>
    obtain ⟨hst, a, hsa, hat, hpp⟩ := hrun
    obtain ⟨lt, hlt, halt, hltt, hsec⟩ := hpp p hp
    have hpe : participant_elapsed t p = p.seconds + max 0 (t - lt) := by
      unfold participant_elapsed
      rw [hlt]
    have hse : session_elapsed t w = s.run_seconds + max 0 (t - a) := by
      unfold session_elapsed
      simp [hsess, get_session, hsa, hst]
    rw [hpe, hse, hsec, max_eq_right (by linarith), max_eq_right (by linarith)]
    ring
  | inr hstp =>
    obtain ⟨hlt, hsec⟩ := hstp.2 p hp
    have hpe : participant_elapsed t p = p.seconds := by
      unfold participant_elapsed
      rw [hlt]
    have hse : session_elapsed t w = s.run_seconds := by
      unfold session_elapsed
      cases hsa : s.started_at <;> simp [hsess, get_session, hsa, hstp.1]
    rw [hpe, hse, hsec]

/-- C2: starting from a freshly created session holding one participant who
joined before the first Start (0 accrued, timer disarmed), any sequence of
Start/Pause/Resume/tick operations at nondecreasing instants — and no
Leave — keeps the participant's accrued total equal to the session's
Running wall-clock total: at any horizon `tEnd` past the last operation,
the participant's settled-plus-live seconds equal the session's elapsed
seconds, however many Pause/Resume cycles occurred. -/
theorem C2_accrual_equals_running_time
    (channel guild uid : Nat) (nm : String) (lv cap xd gd : ℤ) (L : Ledger)
    (ops : List Op) (tEnd : ℚ)
    (hops : ∀ op ∈ ops, isTimerOp op = true)
    (hchain : List.Chain' (· ≤ ·) (ops.map opTime ++ [tEnd])) :
    ∀ p ∈ (ops.foldl applyOp
        ⟨some (created_session channel guild),
         [⟨uid, nm, lv, 0, none, cap, xd, gd⟩], L⟩).parts,
      participant_elapsed tEnd p =
        session_elapsed tEnd (ops.foldl applyOp
          ⟨some (created_session channel guild),
           [⟨uid, nm, lv, 0, none, cap, xd, gd⟩], L⟩) := by
  have hinit : ∀ t0 : ℚ, SyncInv t0
      ⟨some (created_session channel guild),
       [⟨uid, nm, lv, 0, none, cap, xd, gd⟩], L⟩ := by
    intro t0
    refine ⟨created_session channel guild, rfl,
      Or.inr ⟨by simp [created_session], ?_⟩⟩
    intro p hp
    simp at hp
    subst hp
    exact ⟨rfl, rfl⟩
  apply syncInv_elapsed
  cases ops with
  | nil => exact syncInv_mono (le_refl tEnd) (hinit tEnd)
  | cons op ops =>
    have hchain1 : List.Chain' (· ≤ ·) (opTime op :: (ops.map opTime ++ [tEnd])) := by
      simpa using hchain
    have hchain2 : List.Chain' (· ≤ ·)
        (opTime op :: ((op :: ops).map opTime ++ [tEnd])) := by
      simp only [List.map_cons, List.cons_append]
      exact List.chain'_cons.mpr ⟨le_refl _, hchain1⟩
    exact syncInv_foldl_end (op :: ops) (opTime op) tEnd _ hops hchain2 (hinit _)

/-- Witness for C2: Start at 10, Pause at 30, Resume at 40, Pause at 55,
horizon 60 — two Pause/Resume cycles; the participant's total equals the
session's Running total. -/
theorem C2_accrual_equals_running_time_wit :
    participant_elapsed 60
        (⟨7, "A", 5, 0 + max 0 ((30 : ℚ) - 10) + max 0 ((55 : ℚ) - 40),
          none, 0, 0, 0⟩ : Participant) =
      session_elapsed 60
        (List.foldl applyOp
          ⟨some (created_session 1 2), [⟨7, "A", 5, 0, none, 0, 0, 0⟩],
           fun _ => none⟩
          [Op.opStart 1 2 10, Op.opPause 30, Op.opResume 40, Op.opPause 55]) := by
  refine C2_accrual_equals_running_time 1 2 7 "A" 5 0 0 0 (fun _ => none)
    [Op.opStart 1 2 10, Op.opPause 30, Op.opResume 40, Op.opPause 55] 60
    (by decide)
    (by simp [List.chain'_cons, opTime]; norm_num) _ ?_
  show _ ∈ [(⟨7, "A", 5, 0 + max 0 ((30 : ℚ) - 10) + max 0 ((55 : ℚ) - 40),
    none, 0, 0, 0⟩ : Participant)]
  exact List.mem_singleton_self _

/-- Upserting over an existing row: the lookup then finds the new row. -/
lemma findP_replace (uid : Nat) (parts : List Participant)
    (newRow : Participant) (hnew : newRow.user_id = uid) :
    (findP uid parts).isSome = true →
      findP uid (parts.map fun p => if p.user_id == uid then newRow else p) =
        some newRow := by
  induction parts with
  | nil => intro hex; simp [findP] at hex
  | cons p ps ih =>
    intro hex
    by_cases h : p.user_id = uid
    · have hfp : (p.user_id == uid) = true := by simp [h]
      have hpred : (newRow.user_id == uid) = true := by simp [hnew]
      simp only [findP, List.map_cons, List.find?_cons, if_pos hfp, hpred]
    · have hfp : (p.user_id == uid) = false := by simp [h]
      have hfp2 : ¬ ((p.user_id == uid) = true) := by simp [hfp]
      have hex2 : (findP uid ps).isSome = true := by
        simp only [findP, List.find?_cons, hfp] at hex
        exact hex
      have ihr := ih hex2
      simp only [findP, List.map_cons, List.find?_cons, hfp] at ihr ⊢
      simp only [Bool.false_eq_true, if_false, hfp]
      exact ihr

/-- Inserting a fresh row at the tail: the lookup finds it. -/
lemma findP_append_new (uid : Nat) (parts : List Participant)
    (newRow : Participant) (hnew : newRow.user_id = uid)
    (hex : findP uid parts = none) :
    findP uid (parts ++ [newRow]) = some newRow := by
  unfold findP at hex ⊢
  rw [List.find?_append, hex]
  simp [hnew]

/-- C8: the join modal rejects a level outside 1..20 and (for a valid
level) a blank stripped name, in both cases synchronously with the whole
state unchanged; a valid submission upserts the character attributes and
the stored `seconds` of the upserted row is the prior row's value (0 for a
brand-new participant) — never reset on edit. -/
theorem C8_join_validation_and_preservation (w : World) (uid : Nat)
    (name : String) (level cap xd gd : ℤ) (now : ℚ) :
    (¬ (1 ≤ level ∧ level ≤ 20) →
      join_submit uid name level cap xd gd now w = (JoinRes.invalidLevel, w)) ∧
    ((1 ≤ level ∧ level ≤ 20) → pyStrip name = "" →
      join_submit uid name level cap xd gd now w = (JoinRes.emptyName, w)) ∧
    ((1 ≤ level ∧ level ≤ 20) → pyStrip name ≠ "" →
      findP uid (join_submit uid name level cap xd gd now w).2.parts =
        some { user_id := uid, character := pyStrip name, level := level,
               seconds := (match findP uid w.parts with
                           | some p => p.seconds
                           | none => 0),
               last_tick := if (get_session w.sess).1 = 1 then some now else none,
               capped := cap, xp_dip := xd, gp_dip := gd }) := by
  refine ⟨?_, ?_, ?_⟩
  · intro hlv
    simp [join_submit, hlv]
  · intro hlv hname
    simp [join_submit, hlv, hname]
  · intro hlv hname
    simp only [join_submit, if_pos hlv, if_neg hname]
    by_cases hex : (findP uid w.parts).isSome = true
    · simp only [if_pos hex]
      exact findP_replace uid w.parts _ rfl hex
    · simp only [if_neg hex]
      have hnone : findP uid w.parts = none := by
        cases hfind : findP uid w.parts
        · rfl
        · rw [hfind] at hex
          simp at hex
      exact findP_append_new uid w.parts _ rfl hnone

/-- Witness for C8: on a fresh stopped tracker, level 25 is rejected, a
whitespace-only name is rejected (both leaving the world unchanged), and a
valid join of "Ann" at level 10 stores 0 accrued seconds; re-joining with
edited attributes preserves the stored 100 seconds. -/
theorem C8_join_validation_and_preservation_wit :
    join_submit 7 "Ann" 25 0 0 0 5
        ⟨some (created_session 1 2), [], fun _ => none⟩ =
      (JoinRes.invalidLevel, ⟨some (created_session 1 2), [], fun _ => none⟩) ∧
    join_submit 7 "  " 10 0 0 0 5
        ⟨some (created_session 1 2), [], fun _ => none⟩ =
      (JoinRes.emptyName, ⟨some (created_session 1 2), [], fun _ => none⟩) ∧
    findP 7 (join_submit 7 "Ann" 10 0 0 0 5
        ⟨some (created_session 1 2), [], fun _ => none⟩).2.parts =
      some ⟨7, pyStrip "Ann", 10, 0, none, 0, 0, 0⟩ ∧
    findP 7 (join_submit 7 "Bel" 12 1 0 0 5
        ⟨some (created_session 1 2), [⟨7, "Ann", 10, 100, none, 0, 0, 0⟩],
         fun _ => none⟩).2.parts =
      some ⟨7, pyStrip "Bel", 12, 100, none, 1, 0, 0⟩ := by
  refine ⟨?_, ?_, ?_, ?_⟩
  · exact (C8_join_validation_and_preservation
      ⟨some (created_session 1 2), [], fun _ => none⟩ 7 "Ann" 25 0 0 0 5).1
      (by decide)
  · exact (C8_join_validation_and_preservation
      ⟨some (created_session 1 2), [], fun _ => none⟩ 7 "  " 10 0 0 0 5).2.1
      (by decide) (by decide)
  · exact (C8_join_validation_and_preservation
      ⟨some (created_session 1 2), [], fun _ => none⟩ 7 "Ann" 10 0 0 0 5).2.2
      (by decide) (by decide)
  · exact (C8_join_validation_and_preservation
      ⟨some (created_session 1 2), [⟨7, "Ann", 10, 100, none, 0, 0, 0⟩],
       fun _ => none⟩ 7 "Bel" 12 1 0 0 5).2.2
      (by decide) (by decide)

end RPTracker
